import Mathlib

/-!
Verification of the extraction-and-routing engine of the repository
(`backend/robot_driver.py`, `backend/app.py`, `backend/mcp_agent.py`).

The Python code is shallowly embedded: pure string manipulation becomes
functions on `String`/`List Char`; the browser and the HTTP server are
modelled as explicit "world" parameters describing what each external
interaction yields; Python dictionaries of heterogeneous JSON values are
modelled by the inductive type `PyVal`.  Machine reals (CPython floats in
`difflib` similarity ratios) are modelled by exact fractions of naturals;
comparisons are exact rational comparisons.
-/

namespace PyStr

/-- Characters treated as whitespace by Python `str.strip` and by `\s` in
`re` (ASCII fragment; the category names and queries of the site are ASCII). -/
def isPySpace (c : Char) : Bool :=
  c = ' ' || c = '\t' || c = '\n' || c = '\r' || c = '\x0b' || c = '\x0c'

/-- Python `str.strip()` on a character list: drop whitespace from both ends. -/
def stripL (l : List Char) : List Char :=
  ((l.dropWhile isPySpace).reverse.dropWhile isPySpace).reverse

/-- Python `str.strip()`. -/
def pyStrip (s : String) : String := String.mk (stripL s.data)

/-- `re.sub(r"\s+", " ", s)`: collapse every maximal whitespace run into a
single space (computed right-to-left so the recursion is structural). -/
def collapseWs : List Char → List Char
  | [] => []
  | c :: cs =>
    let rest := collapseWs cs
    if isPySpace c then
      match rest with
      | d :: _ => if d = ' ' then rest else ' ' :: rest
      | [] => [' ']
    else c :: rest

/-- `_clean_text` from `robot_driver.py`: collapse whitespace runs then strip. -/
def cleanText (s : String) : String := String.mk (stripL (collapseWs s.data))

/-- Python `str.lower()` (ASCII fragment, character-wise). -/
def lowerStr (s : String) : String := String.mk (s.data.map Char.toLower)

/-- Python `str.startswith` (code-point-wise). -/
def pyStartsWith (s pre : String) : Bool := pre.data.isPrefixOf s.data

/-- Python slicing `s[n:]` (code-point-wise). -/
def pyDrop (s : String) (n : Nat) : String := String.mk (s.data.drop n)

end PyStr

namespace Difflib

/-!
Model of the part of CPython's `difflib` used by `robot_driver.py`:
`SequenceMatcher.ratio` and `get_close_matches(word, possibilities, n=1,
cutoff=0.65)`.  Junk heuristics are not modelled (`autojunk` only acts on
sequences of length ≥ 200; the site's category names and realistic queries
are far shorter, so the heuristic never fires there).  Where CPython breaks
ties between equally long matching blocks by scan order, this model breaks
them by first candidate in (i, j)-lexicographic order; the total number of
matched characters, which is all `ratio` consumes, is the same.
Float arithmetic is replaced by exact fractions `(numerator, denominator)`.
-/

/-- Length of the common prefix of two character lists: the length of the
matching block starting at a given pair of positions. -/
def runLen : List Char → List Char → Nat
  | a :: as, b :: bs => if a = b then runLen as bs + 1 else 0
  | _, _ => 0

/-- All candidate matching blocks `(i, j, length of run starting at (i, j))`. -/
def candidates (a b : List Char) : List (Nat × Nat × Nat) :=
  (List.range a.length).flatMap fun i =>
    (List.range b.length).map fun j => (i, j, runLen (a.drop i) (b.drop j))

/-- Fold step keeping the first candidate with the strictly largest run. -/
def bestStep (best c : Nat × Nat × Nat) : Nat × Nat × Nat :=
  if best.2.2 < c.2.2 then c else best

/-- `SequenceMatcher.find_longest_match` over the whole current window:
the first longest matching block (as start positions and length). -/
def bestBlock (a b : List Char) : Nat × Nat × Nat :=
  (candidates a b).foldl bestStep (0, 0, 0)

/-- Total size of the matching blocks of `SequenceMatcher.get_matching_blocks`:
take the longest block, recurse on the pieces to its left and to its right.
`fuel` bounds the recursion depth (any `fuel ≥ a.length` is enough). -/
def matchTotalF : Nat → List Char → List Char → Nat
  | 0, _, _ => 0
  | fuel + 1, a, b =>
    let t := bestBlock a b
    if t.2.2 = 0 then 0
    else
      matchTotalF fuel (a.take t.1) (b.take t.2.1) + t.2.2 +
        matchTotalF fuel (a.drop (t.1 + t.2.2)) (b.drop (t.2.1 + t.2.2))

/-- Total number of matched characters between `a` and `b`. -/
def matchTotal (a b : List Char) : Nat := matchTotalF a.length a b

/-- `SequenceMatcher.ratio()` as an exact fraction `(num, den)` with `den > 0`:
`2 * M / (len(a) + len(b))`, and `1.0` when both sequences are empty
(`difflib._calculate_ratio`). -/
def ratioPair (a b : List Char) : Nat × Nat :=
  let T := a.length + b.length
  if T = 0 then (1, 1) else (2 * matchTotal a b, T)

/-- Python string `>` comparison (code-point lexicographic). -/
def strGt : List Char → List Char → Bool
  | [], _ => false
  | _ :: _, [] => true
  | a :: as, b :: bs => b < a || (a = b && strGt as bs)

/-- Python tuple comparison `(ratio₁, s₁) > (ratio₂, s₂)` with exact
fractions in place of floats. -/
def pairGt (c acc : (Nat × Nat) × List Char) : Bool :=
  acc.1.1 * c.1.2 < c.1.1 * acc.1.2 ||
    (c.1.1 * acc.1.2 = acc.1.1 * c.1.2 && strGt c.2 acc.2)

/-- The `(ratio, x)` pairs surviving the `cutoff = 0.65` filter, in order
(`ratio x word ≥ 13/20`, cross-multiplied). -/
def gcmCandidates (word : List Char) (poss : List (List Char)) :
    List ((Nat × Nat) × List Char) :=
  poss.filterMap fun x =>
    let p := ratioPair x word
    if 13 * p.2 ≤ 20 * p.1 then some (p, x) else none

/-- `difflib.get_close_matches(word, poss, n=1, cutoff=0.65)`: the single
best-scoring candidate (first one on full ties), if any passes the cutoff. -/
def getCloseMatch1 (word : List Char) (poss : List (List Char)) :
    Option (List Char) :=
  match gcmCandidates word poss with
  | [] => none
  | h :: t => some ((t.foldl (fun acc c => if pairGt c acc then c else acc) h).2)

end Difflib

namespace Robot

open PyStr Difflib

def BOOKS_ROOT : String := "https://books.toscrape.com/"
def AGENT_NAME : String := "BroncoMCP/1.0"
def PAGINATION_MAX_PAGES : Nat := 50

/-- `_abs_url` from `robot_driver.py`. -/
def _abs_url (href : String) : String :=
  if PyStr.pyStartsWith href "http" then href
  else BOOKS_ROOT ++ (if PyStr.pyStartsWith href "./" then PyStr.pyDrop href 2
    else href)

/-- `_get_categories` from `robot_driver.py`: from the raw sidebar links
`(inner_text, href)`, keep the cleaned non-empty names with absolute urls. -/
def _get_categories (links : List (String × String)) : List (String × String) :=
  links.filterMap fun l =>
    let name := cleanText l.1
    if name = "" then none else some (name, _abs_url l.2)

/-- `_closest_category` from `robot_driver.py`: fuzzy-match the lowered query
against the lowered category names and return the first category whose
lowered name equals the winning match. -/
def _closest_category (query : String) (categories : List (String × String)) :
    Option (String × String) :=
  if query = "" then none
  else
    match getCloseMatch1 (lowerStr query).data
        (categories.map fun c => (lowerStr c.1).data) with
    | none => none
    | some target => categories.find? fun c => (lowerStr c.1).data == target

/-- A product card on a category page: the raw `title` attribute of the
`h3 a` anchor (empty when the attribute is missing) and the raw text of the
`.price_color` element. -/
structure Card where
  title : String
  price : String
deriving DecidableEq

/-- An item of the response: `{"title": ..., "price": ...}`. -/
structure BItem where
  title : String
  price : String
deriving DecidableEq

/-- Why the pagination loop of `_extract_items_from_category` stops after the
current page: no `li.next a` element, an empty `href`, or a
`PWTimeoutError` while clicking / waiting for the next page. All three
`break` out of the loop with the items collected so far. -/
inductive PageEnd where
  | noNext
  | emptyHref
  | timeoutNext
deriving DecidableEq

/-- What the site offers after the current category page: either the loop
stops (`stop`) or the next page loads with its cards and its own
continuation (`next`). -/
inductive Cont where
  | stop (e : PageEnd)
  | next (cards : List Card) (rest : Cont)
deriving DecidableEq

/-- The `meta` object of the response. Every field is optional because the
source builds different dict literals on different paths; `none` models an
absent key.  `category_url` distinguishes absent (`none`) from present but
null (`some none`). -/
structure BMeta where
  count : Option Nat := none
  category_url : Option (Option String) := none
  categories : Option (List String) := none
  note : Option String := none
deriving DecidableEq

/-- The canonical response dict of `robot_driver.search_product`. -/
structure BResponse where
  agent : String
  status : String
  category : String
  items : List BItem
  meta : BMeta
deriving DecidableEq

/-- `limit is not None and len(items) >= limit`. -/
def limitReached : Option Nat → Nat → Bool
  | none, _ => false
  | some l, n => l ≤ n

/-- `scrape_current_page` from `_extract_items_from_category`, with the
mutated `items` list made explicit: walk the cards of the current page,
append `{title, price}` for each card with a non-empty cleaned title, and
return `true` (stop) as soon as the limit is reached. -/
def scrapePage (limit : Option Nat) : List BItem → List Card → List BItem × Bool
  | items, [] => (items, false)
  | items, c :: cs =>
    let t := PyStr.cleanText c.title
    let items' := if t ≠ "" then items ++ [⟨t, PyStr.cleanText c.price⟩] else items
    if limitReached limit items'.length then (items', true)
    else scrapePage limit items' cs

/-- The pagination `while` loop of `_extract_items_from_category`: while
fewer than `PAGINATION_MAX_PAGES` pages have been seen, stop on a missing
next link, an empty href or a pagination timeout (keeping the items
collected so far), otherwise scrape the next page and continue unless the
limit stopped the scrape. -/
def extractLoop (limit : Option Nat) : Cont → List BItem → Nat → List BItem
  | .stop _, items, pagesSeen => if pagesSeen < PAGINATION_MAX_PAGES then items else items
  | .next cards rest, items, pagesSeen =>
    if pagesSeen < PAGINATION_MAX_PAGES then
      let r := scrapePage limit items cards
      if r.2 then r.1 else extractLoop limit rest r.1 (pagesSeen + 1)
    else items

/-- `_extract_items_from_category`: scrape the first page; if the limit was
reached there, return immediately (no pagination), else run the pagination
loop with `pages_seen = 1`. -/
def _extract_items_from_category (firstCards : List Card) (cont : Cont)
    (limit : Option Nat) : List BItem :=
  let r := scrapePage limit [] firstCards
  if r.2 then r.1 else extractLoop limit cont r.1 1

/-- The browser-visible world of one `search_product` invocation:
whether navigating to the site root succeeds, what the category sidebar
yields (`none` models the `.nav-list` selector wait timing out, `some`
the raw `(inner_text, href)` links), and for each category url either a
first-page timeout (`none`) or the first page cards plus pagination
continuation. -/
structure World where
  rootOk : Bool
  links : Option (List (String × String))
  catPage : String → Option (List Card × Cont)

/-- The limit normalization at the top of `search_product`:
`if limit <= 0: limit = None` (the input is already an int in this model;
the `int(...)` conversion failure branch also yields `None`). -/
def normalizeLimit : Option Int → Option Nat
  | none => none
  | some l => if l ≤ 0 then none else some l.toNat

/-- `robot_driver.search_product`: resolve the category from the query via
fuzzy matching and scrape it, returning the canonical response dict.
Each dict literal of the source corresponds to one branch below. -/
def search_product (w : World) (product : String) (limit : Option Int) :
    BResponse :=
  let query := PyStr.pyStrip product
  let lim := normalizeLimit limit
  if w.rootOk = false then
    ⟨AGENT_NAME, "error", query, [],
      { note := some "Timeout navigating to site root" }⟩
  else
    match w.links with
    | none =>
      ⟨AGENT_NAME, "error", query, [],
        { note := some "Could not load categories" }⟩
    | some links =>
      let categories := _get_categories links
      if query = "" then
        ⟨AGENT_NAME, "success", "", [],
          { categories := some (categories.map (·.1)), count := some 0,
            category_url := some none,
            note := some "No query provided; listing categories" }⟩
      else
        match _closest_category query categories with
        | none =>
          ⟨AGENT_NAME, "success", query, [],
            { categories := some (categories.map (·.1)), count := some 0,
              category_url := some none,
              note := some "No close category match; choose from \x27categories\x27" }⟩
        | some (name, url) =>
          match w.catPage url with
          | none =>
            ⟨AGENT_NAME, "error", name, [],
              { count := some 0, category_url := some (some url),
                note := some "Timeout navigating category page" }⟩
          | some (cards, cont) =>
            let items := _extract_items_from_category cards cont lim
            ⟨AGENT_NAME, "success", name, items,
              { count := some items.length, category_url := some (some url) }⟩

end Robot

/-- A Python/JSON value, as exchanged between the layers. -/
inductive PyVal where
  | null
  | bool (b : Bool)
  | int (n : Int)
  | str (s : String)
  | list (l : List PyVal)
  | dict (d : List (String × PyVal))

namespace Py

/-- `d.get(k)`: the value of the first binding of `k`, if any. -/
def pyGet (d : List (String × PyVal)) (k : String) : Option PyVal :=
  (d.find? fun kv => kv.1 == k).map (·.2)

/-- `d.get(k, default)`. -/
def pyGetD (d : List (String × PyVal)) (k : String) (v : PyVal) : PyVal :=
  (pyGet d k).getD v

/-- Python truthiness of a value. -/
def truthy : PyVal → Bool
  | .null => false
  | .bool b => b
  | .int n => n != 0
  | .str s => s ≠ ""
  | .list l => !l.isEmpty
  | .dict d => !d.isEmpty

/-- Python `v == "s"` for a string literal on the right: values of other
types compare unequal. -/
def isStrEq (v : PyVal) (s : String) : Bool :=
  match v with
  | .str t => t == s
  | _ => false

/-- Python `a | b` on dicts (keys of `a` in order, values overridden by
`b`, then the new keys of `b` in order); the model assumes the key lists
are duplicate-free, as Python dicts are. -/
def dictUnion (a b : List (String × PyVal)) : List (String × PyVal) :=
  (a.map fun kv =>
    match pyGet b kv.1 with
    | some v => (kv.1, v)
    | none => kv) ++
    b.filter fun kv => (pyGet a kv.1).isNone

end Py

namespace App

open Py

/-- `_normalize_search_payload` from `app.py`: coerce a driver payload into
the canonical `{agent, status, category, items, meta}` shape.  A dict whose
`items` is already a list is passed through unchanged; a legacy flat
`title`/`price` dict is wrapped; anything else becomes an error shape. -/
def _normalize_search_payload (raw : PyVal) (requested_category : String) :
    PyVal :=
  match raw with
  | .dict d =>
    match pyGet d "items" with
    | some (.list _) => raw
    | _ =>
      let title := pyGetD d "title" .null
      let price := pyGetD d "price" .null
      let status := pyGetD d "status" (.str "success")
      let agent := pyGetD d "agent" (.str "BroncoMCP/1.0")
      let items : List PyVal :=
        if truthy title then [.dict [("title", title), ("price", price)]]
        else []
      let meta := pyGetD d "meta" .null
      let meta_out : List (String × PyVal) :=
        match meta with
        | .dict m => m
        | .str s => [("legacy_meta", .str s)]
        | _ => []
      let category := pyGetD d "category" .null
      .dict [("agent", agent), ("status", status),
        ("category", if truthy category then category
          else .str requested_category),
        ("items", .list items),
        ("meta", .dict (dictUnion meta_out [("normalized", .bool true)]))]
  | _ =>
    .dict [("agent", .str "BroncoMCP/1.0"), ("status", .str "error"),
      ("category", .str requested_category), ("items", .list []),
      ("meta", .dict [("note",
        .str "Non-dict payload from driver; normalized to empty list")])]

end App

namespace Mcp

open Py

/-- Lowercase hex digit. -/
def hexDigit (n : Nat) : Char := Char.ofNat (if n < 10 then 48 + n else 87 + n)

/-- `\uXXXX` escape of a (basic-plane) code point. -/
def u4 (n : Nat) : List Char :=
  ['\\', 'u', hexDigit (n / 4096 % 16), hexDigit (n / 256 % 16),
    hexDigit (n / 16 % 16), hexDigit (n % 16)]

/-- Escaping of one character by `json.dumps` (default `ensure_ascii`):
everything outside printable ASCII is escaped. -/
def jsonEscapeChar (c : Char) : List Char :=
  if c = '"' then ['\\', '"']
  else if c = '\\' then ['\\', '\\']
  else if c = '\n' then ['\\', 'n']
  else if c = '\t' then ['\\', 't']
  else if c = '\r' then ['\\', 'r']
  else if c = '\x08' then ['\\', 'b']
  else if c = '\x0c' then ['\\', 'f']
  else if c.toNat < 32 || 126 < c.toNat then u4 c.toNat
  else [c]

/-- A JSON string literal. -/
def jsonStr (s : String) : String :=
  "\"" ++ String.mk (s.data.flatMap jsonEscapeChar) ++ "\""

mutual

/-- `json.dumps` with its default separators, used by `run_ai_goal` only to
measure the serialized size of the goal. -/
def jsonDumps : PyVal → String
  | .null => "null"
  | .bool true => "true"
  | .bool false => "false"
  | .int n => toString n
  | .str s => jsonStr s
  | .list l => "[" ++ String.intercalate ", " (jsonDumpsList l) ++ "]"
  | .dict d => "\x7b" ++ String.intercalate ", " (jsonDumpsDict d) ++ "\x7d"

def jsonDumpsList : List PyVal → List String
  | [] => []
  | v :: vs => jsonDumps v :: jsonDumpsList vs

def jsonDumpsDict : List (String × PyVal) → List String
  | [] => []
  | kv :: kvs => (jsonStr kv.1 ++ ": " ++ jsonDumps kv.2) :: jsonDumpsDict kvs

end

mutual

/-- Python `repr` of a JSON-like value (string escaping elided; no claim
depends on the repr of containers). -/
def pyRepr : PyVal → String
  | .null => "None"
  | .bool true => "True"
  | .bool false => "False"
  | .int n => toString n
  | .str s => "\x27" ++ s ++ "\x27"
  | .list l => "[" ++ String.intercalate ", " (pyReprList l) ++ "]"
  | .dict d => "\x7b" ++ String.intercalate ", " (pyReprDict d) ++ "\x7d"

def pyReprList : List PyVal → List String
  | [] => []
  | v :: vs => pyRepr v :: pyReprList vs

def pyReprDict : List (String × PyVal) → List String
  | [] => []
  | kv :: kvs => ("\x27" ++ kv.1 ++ "\x27: " ++ pyRepr kv.2) :: pyReprDict kvs

end

/-- Python `str(...)`. -/
def pyToStr (v : PyVal) : String :=
  match v with
  | .str s => s
  | _ => pyRepr v

/-- `(g.get("intent") or "search_product").lower()`.  Falsy values give the
default; a truthy non-string has no `.lower()` and raises, modelled as
`none`. -/
def intentOf (g : List (String × PyVal)) : Option String :=
  match pyGet g "intent" with
  | none => some "search_product"
  | some .null => some "search_product"
  | some (.str s) =>
    some (if s = "" then "search_product" else PyStr.lowerStr s)
  | some (.bool b) => if b then none else some "search_product"
  | some (.int n) => if n = 0 then some "search_product" else none
  | some (.list l) => if l.isEmpty then some "search_product" else none
  | some (.dict d) => if d.isEmpty then some "search_product" else none

/-- `max(1, min(MAX_STEPS, steps or MAX_STEPS))` with `MAX_STEPS = 3`
(`ROBOT_MAX_STEPS` default).  `steps or MAX_STEPS` maps both `None` and `0`
to the default. -/
def maxStepsOf (steps : Option Int) : Nat :=
  (max 1 (min 3 (match steps with
    | none => 3
    | some s => if s = 0 then 3 else s))).toNat

/-- The normalized dict returned by `mcp_agent.search_product` (the
`timings` wall-clock field is not modelled). -/
structure McpOut where
  status : PyVal
  items : List PyVal
  meta : PyVal
  agent : PyVal

/-- `mcp_agent.search_product` applied to the JSON payload one
`/search-json` POST returned: normalize the common shapes. The HTTP layer
(`_http`, default `ROBOT_RETRIES = 1`, hence a single request attempt) and
the fire-and-forget `_post_metric` push are outside the model; the
payload is the argument. -/
def search_product (resp : PyVal) : McpOut :=
  match resp with
  | .dict d =>
    let status := pyGetD d "status" (.str "error")
    let agent := pyGetD d "agent" (.str "BroncoMCP/1.0")
    let items : List PyVal :=
      match pyGet d "items" with
      | some (.list l) => l
      | _ =>
        match pyGet d "data" with
        | some (.dict dd) =>
          match pyGet dd "items" with
          | some (.list l) => l
          | _ => []
        | _ => []
    let meta := pyGetD d "meta" (.dict [])
    ⟨status, items, meta, agent⟩
  | .list l => ⟨.str "success", l, .dict [], .str "BroncoMCP/1.0"⟩
  | _ => ⟨.str "error", [], .dict [], .str "BroncoMCP/1.0"⟩

/-- The dict `run_ai_goal` builds from a search result (`timings` not
modelled). -/
def mcpToPy (r : McpOut) : PyVal :=
  .dict [("status", r.status), ("items", .list r.items), ("meta", r.meta),
    ("agent", r.agent)]

/-- One entry of `taken_steps` (start time and duration not modelled). -/
structure StepLog where
  action : String
  ok : Bool
  intent : Option String := none
  items : Option Nat := none
deriving DecidableEq

/-- The `for step_idx in range(max_steps)` loop of `run_ai_goal`.  Both
branches of the body end in `break`, so the loop executes exactly one
iteration whenever `max_steps ≥ 1`; with `max_steps = 0` the loop body
never runs and the later read of `final` raises (`none`).  The result is
`(final, taken_steps, number of /search-json calls)`; `world k` is the
payload of the `k`-th `/search-json` POST of this invocation. -/
def runLoop (world : Nat → PyVal) (intent : String) (maxSteps : Nat) :
    Option (PyVal × List StepLog × Nat) :=
  match maxSteps with
  | 0 => none
  | _ + 1 =>
    if intent = "search_product" then
      let res := search_product (world 0)
      some (mcpToPy res,
        [{ action := "search_product", ok := isStrEq res.status "success",
           items := some res.items.length }], 1)
    else
      some (.dict [("status", .str "error"),
          ("message", .str ("unknown intent: " ++ intent))],
        [{ action := "unknown_intent", ok := false, intent := some intent }],
        0)

/-- `final.get("status")` (the final result is a dict on every path). -/
def statusVal (v : PyVal) : PyVal :=
  match v with
  | .dict d => pyGetD d "status" .null
  | _ => .null

/-- The response of `run_ai_goal` (`run_id` and `timings` are fresh
randomness and wall-clock time, not modelled; `searchCalls` is ghost
instrumentation counting the `/search-json` attempts made). -/
structure RunOut where
  status : String
  message : Option String := none
  result : Option PyVal := none
  steps : List StepLog := []
  searchCalls : Nat := 0

/-- `mcp_agent.run_ai_goal` on an already-normalized dict goal (a string
goal is first json-parsed or classified by `_goal_from_text`; every claim
below concerns the behavior after that normalization).  `none` models an
uncaught exception. -/
def run_ai_goal_core (world : Nat → PyVal) (g : List (String × PyVal))
    (steps : Option Int) : Option RunOut :=
  let maxSteps := maxStepsOf steps
  if 1024 < (jsonDumps (.dict g)).length then
    some { status := "error", message := some "Goal payload is too large." }
  else
    match intentOf g with
    | none => none
    | some intent =>
      let query := pyGetD g "query" (.str "")
      let _queryStr := pyToStr query
      match runLoop world intent maxSteps with
      | none => none
      | some (final, logs, calls) =>
        let ok := isStrEq (statusVal final) "success"
        some { status := (if ok then "success" else "error"),
               result := some final, steps := logs, searchCalls := calls }

end Mcp

/-! ## Checkers and concrete fixtures used by the statements below -/

namespace Robot

/-- The `meta.count` / `items` consistency invariant: whenever the `count`
key is present it equals the number of items. -/
def metaCountOk (r : BResponse) : Bool :=
  match r.meta.count with
  | none => true
  | some n => n == r.items.length

/-- A world whose category sidebar is the three-entry taxonomy of the
specification scenario. -/
def wNoMatch : World :=
  ⟨true, some [("Travel", "travel"), ("Mystery", "mystery"),
    ("Food and Drink", "food")], fun _ => none⟩

/-- A world where waiting for the category sidebar times out. -/
def wCatsFail : World := ⟨true, none, fun _ => none⟩

/-- A world where the first page of every category times out. -/
def wCatTimeout : World := ⟨true, some [("Travel", "t-url")], fun _ => none⟩

/-- A world where page 1 of the category yields two books and the
pagination step to page 2 times out. -/
def wPagTimeout : World :=
  ⟨true, some [("Travel", "t-url")],
    fun _ => some ([⟨"Book A", "£10"⟩, ⟨"Book B", "£11"⟩],
      .stop .timeoutNext)⟩

/-- Four titled cards on one page (more than the limit used below). -/
def cards4 : List Card :=
  [⟨"A", "£1"⟩, ⟨"B", "£2"⟩, ⟨"C", "£3"⟩, ⟨"D", "£4"⟩]

/-- A continuation offering one further page. -/
def contMore : Cont := .next [⟨"E", "£5"⟩] (.stop .noNext)

/-- A continuation with no further page. -/
def contEnd : Cont := .stop .noNext

end Robot

namespace App

/-- Checker: the value is a dict whose `items` key holds a list. -/
def itemsIsList (v : PyVal) : Bool :=
  match v with
  | .dict d =>
    match Py.pyGet d "items" with
    | some (.list _) => true
    | _ => false
  | _ => false

end App

namespace Mcp

/-- An HTTP world whose first `/search-json` response is the error shape the
server returns when the browser-side scraper raises, and whose second
response (never requested by the code) would be a success. -/
def wFailThenOk : Nat → PyVal := fun k =>
  if k = 0 then
    .dict [("status", .str "error"), ("items", .list []),
      ("meta", .dict []), ("agent", .str "BroncoMCP/1.0")]
  else
    .dict [("status", .str "success"),
      ("items", .list [.dict [("title", .str "A"), ("price", .str "£1")]])]

/-- An HTTP world that is never consulted. -/
def wNull : Nat → PyVal := fun _ => .null

/-- A structured search goal. -/
def gSearch : List (String × PyVal) :=
  [("intent", .str "search_product"), ("query", .str "Travel")]

/-- A structured goal with an unrecognized intent. -/
def gDance : List (String × PyVal) := [("intent", .str "dance")]

/-- The run result the router produces for `gDance`. -/
def rDance : RunOut :=
  ⟨"error", none,
    some (.dict [("status", .str "error"),
      ("message", .str "unknown intent: dance")]),
    [⟨"unknown_intent", false, some "dance", none⟩], 0⟩

end Mcp

/-! ## Properties of the similarity model -/

namespace Difflib

theorem runLen_le_left : ∀ a b : List Char, runLen a b ≤ a.length := by
  intro a
  induction a with
  | nil => intro b; cases b <;> simp [runLen]
  | cons x xs ih =>
    intro b
    cases b with
    | nil => simp [runLen]
    | cons y ys =>
      simp only [runLen, List.length_cons]
      split
      · exact Nat.succ_le_succ (ih ys)
      · exact Nat.zero_le _

theorem runLen_le_right : ∀ a b : List Char, runLen a b ≤ b.length := by
  intro a
  induction a with
  | nil => intro b; cases b <;> simp [runLen]
  | cons x xs ih =>
    intro b
    cases b with
    | nil => simp [runLen]
    | cons y ys =>
      simp only [runLen, List.length_cons]
      split
      · exact Nat.succ_le_succ (ih ys)
      · exact Nat.zero_le _

theorem runLen_self : ∀ a : List Char, runLen a a = a.length := by
  intro a
  induction a with
  | nil => simp [runLen]
  | cons x xs ih => simp [runLen, ih]

theorem runLen_take : ∀ a b : List Char,
    a.take (runLen a b) = b.take (runLen a b) := by
  intro a
  induction a with
  | nil => intro b; cases b <;> simp [runLen]
  | cons x xs ih =>
    intro b
    cases b with
    | nil => simp [runLen]
    | cons y ys =>
      simp only [runLen]
      split
      · next hxy => simp [List.take_succ_cons, hxy, ih ys]
      · simp

theorem mem_candidates {a b : List Char} {c : Nat × Nat × Nat}
    (h : c ∈ candidates a b) :
    ∃ i j, i < a.length ∧ j < b.length ∧
      c = (i, j, runLen (a.drop i) (b.drop j)) := by
  simp only [candidates, List.mem_flatMap, List.mem_map, List.mem_range] at h
  obtain ⟨i, hi, j, hj, rfl⟩ := h
  exact ⟨i, j, hi, hj, rfl⟩

theorem zero_mem_candidates {a b : List Char} (ha : a ≠ []) (hb : b ≠ []) :
    (0, 0, runLen a b) ∈ candidates a b := by
  simp only [candidates, List.mem_flatMap, List.mem_map, List.mem_range]
  exact ⟨0, List.length_pos.mpr ha, 0, List.length_pos.mpr hb, by simp⟩

theorem foldl_bestStep_eq_or_mem :
    ∀ (l : List (Nat × Nat × Nat)) (acc),
      l.foldl bestStep acc = acc ∨ l.foldl bestStep acc ∈ l := by
  intro l
  induction l with
  | nil => intro acc; exact Or.inl rfl
  | cons c cs ih =>
    intro acc
    rw [List.foldl_cons]
    rcases ih (bestStep acc c) with h | h
    · rw [h]
      unfold bestStep
      split
      · exact Or.inr (List.mem_cons_self _ _)
      · exact Or.inl rfl
    · exact Or.inr (List.mem_cons_of_mem _ h)

theorem le_foldl_bestStep_acc :
    ∀ (l : List (Nat × Nat × Nat)) (acc),
      acc.2.2 ≤ (l.foldl bestStep acc).2.2 := by
  intro l
  induction l with
  | nil => intro acc; exact Nat.le_refl _
  | cons c cs ih =>
    intro acc
    rw [List.foldl_cons]
    refine Nat.le_trans ?_ (ih (bestStep acc c))
    unfold bestStep
    split
    · next h => exact Nat.le_of_lt h
    · exact Nat.le_refl _

theorem le_foldl_bestStep_of_mem :
    ∀ (l : List (Nat × Nat × Nat)) (acc) (c), c ∈ l →
      c.2.2 ≤ (l.foldl bestStep acc).2.2 := by
  intro l
  induction l with
  | nil => intro _ c h; cases h
  | cons d ds ih =>
    intro acc c hc
    rw [List.foldl_cons]
    rcases List.mem_cons.mp hc with rfl | hmem
    · refine Nat.le_trans ?_ (le_foldl_bestStep_acc ds (bestStep acc c))
      unfold bestStep
      split
      · exact Nat.le_refl _
      · next h => exact Nat.le_of_not_lt h
    · exact ih (bestStep acc d) c hmem

theorem bestBlock_cases (a b : List Char) :
    bestBlock a b = (0, 0, 0) ∨
      ∃ i j, i < a.length ∧ j < b.length ∧
        bestBlock a b = (i, j, runLen (a.drop i) (b.drop j)) := by
  rcases foldl_bestStep_eq_or_mem (candidates a b) (0, 0, 0) with h | h
  · exact Or.inl h
  · obtain ⟨i, j, hi, hj, heq⟩ := mem_candidates h
    exact Or.inr ⟨i, j, hi, hj, heq⟩

theorem bestBlock_self {a : List Char} (ha : a ≠ []) :
    bestBlock a a = (0, 0, a.length) := by
  have hge : a.length ≤ (bestBlock a a).2.2 := by
    have := le_foldl_bestStep_of_mem (candidates a a) (0, 0, 0) _
      (zero_mem_candidates ha ha)
    simpa [runLen_self] using this
  rcases bestBlock_cases a a with h | ⟨i, j, hi, hj, heq⟩
  · rw [h] at hge
    exact absurd (List.length_eq_zero.mp (Nat.le_zero.mp hge)) ha
  · have h1 : runLen (a.drop i) (a.drop j) ≤ a.length - i := by
      have := runLen_le_left (a.drop i) (a.drop j)
      rwa [List.length_drop] at this
    have h2 : runLen (a.drop i) (a.drop j) ≤ a.length - j := by
      have := runLen_le_right (a.drop i) (a.drop j)
      rwa [List.length_drop] at this
    rw [heq] at hge
    simp only at hge
    have hi0 : i = 0 := by omega
    have hj0 : j = 0 := by omega
    subst hi0; subst hj0
    rw [heq]
    simp [runLen_self]

theorem matchTotalF_succ (fuel : Nat) (a b : List Char) :
    matchTotalF (fuel + 1) a b =
      if (bestBlock a b).2.2 = 0 then 0
      else
        matchTotalF fuel (a.take (bestBlock a b).1) (b.take (bestBlock a b).2.1)
          + (bestBlock a b).2.2 +
          matchTotalF fuel (a.drop ((bestBlock a b).1 + (bestBlock a b).2.2))
            (b.drop ((bestBlock a b).2.1 + (bestBlock a b).2.2)) := rfl

theorem matchTotalF_le (fuel : Nat) : ∀ a b : List Char,
    matchTotalF fuel a b ≤ a.length ∧ matchTotalF fuel a b ≤ b.length := by
  induction fuel with
  | zero => intro a b; exact ⟨Nat.zero_le _, Nat.zero_le _⟩
  | succ fuel ih =>
    intro a b
    rw [matchTotalF_succ]
    rcases bestBlock_cases a b with h | ⟨i, j, hi, hj, heq⟩
    · rw [h]; simp
    · rw [heq]
      simp only
      by_cases hk0 : runLen (a.drop i) (b.drop j) = 0
      · simp [hk0]
      · rw [if_neg hk0]
        have hka : runLen (a.drop i) (b.drop j) ≤ a.length - i := by
          have := runLen_le_left (a.drop i) (b.drop j)
          rwa [List.length_drop] at this
        have hkb : runLen (a.drop i) (b.drop j) ≤ b.length - j := by
          have := runLen_le_right (a.drop i) (b.drop j)
          rwa [List.length_drop] at this
        have h1 := ih (a.take i) (b.take j)
        have h2 := ih (a.drop (i + runLen (a.drop i) (b.drop j)))
          (b.drop (j + runLen (a.drop i) (b.drop j)))
        rw [List.length_take, List.length_take] at h1
        rw [List.length_drop, List.length_drop] at h2
        have hmina : min i a.length = i := Nat.min_eq_left (Nat.le_of_lt hi)
        have hminb : min j b.length = j := Nat.min_eq_left (Nat.le_of_lt hj)
        rw [hmina, hminb] at h1
        omega

theorem matchTotalF_nil2 : ∀ fuel : Nat, matchTotalF fuel [] [] = 0 := by
  intro fuel
  cases fuel with
  | zero => rfl
  | succ fuel => rfl

theorem matchTotal_self : ∀ a : List Char, matchTotal a a = a.length := by
  intro a
  cases a with
  | nil => rfl
  | cons x xs =>
    have ha : (x :: xs : List Char) ≠ [] := by simp
    show matchTotalF (x :: xs).length (x :: xs) (x :: xs) = (x :: xs).length
    rw [List.length_cons, matchTotalF_succ, bestBlock_self ha]
    simp only [List.length_cons, List.take_zero, Nat.zero_add]
    rw [if_neg (Nat.succ_ne_zero _)]
    have hdrop : (x :: xs).drop (xs.length + 1) = ([] : List Char) := by
      have : (x :: xs).length = xs.length + 1 := List.length_cons x xs
      rw [← this, List.drop_length]
    rw [hdrop, matchTotalF_nil2]
    omega

theorem matchTotalF_inj : ∀ fuel : Nat, ∀ a b : List Char,
    a.length ≤ fuel → matchTotalF fuel a b = a.length →
    a.length = b.length → a = b := by
  intro fuel
  induction fuel with
  | zero =>
    intro a b hle _ hlen
    have ha : a = [] := List.length_eq_zero.mp (Nat.le_zero.mp hle)
    subst ha
    have hb : b = [] := List.length_eq_zero.mp (by omega)
    subst hb
    rfl
  | succ fuel ih =>
    intro a b hle hM hlen
    rw [matchTotalF_succ] at hM
    have nilcase : (0 : Nat) = a.length → a = b := by
      intro h0
      have ha : a = [] := List.length_eq_zero.mp h0.symm
      subst ha
      have hb : b = [] := List.length_eq_zero.mp (by omega)
      subst hb
      rfl
    rcases bestBlock_cases a b with h | ⟨i, j, hi, hj, heq⟩
    · rw [h] at hM
      simp only [if_pos rfl] at hM
      exact nilcase hM
    · rw [heq] at hM
      simp only at hM
      by_cases hk0 : runLen (a.drop i) (b.drop j) = 0
      · rw [if_pos hk0] at hM
        exact nilcase hM
      · rw [if_neg hk0] at hM
        have hka : runLen (a.drop i) (b.drop j) ≤ a.length - i := by
          have := runLen_le_left (a.drop i) (b.drop j)
          rwa [List.length_drop] at this
        have hkb : runLen (a.drop i) (b.drop j) ≤ b.length - j := by
          have := runLen_le_right (a.drop i) (b.drop j)
          rwa [List.length_drop] at this
        have b1 := matchTotalF_le fuel (a.take i) (b.take j)
        have b2 := matchTotalF_le fuel
          (a.drop (i + runLen (a.drop i) (b.drop j)))
          (b.drop (j + runLen (a.drop i) (b.drop j)))
        rw [List.length_take, List.length_take,
          Nat.min_eq_left (Nat.le_of_lt hi), Nat.min_eq_left (Nat.le_of_lt hj)]
          at b1
        rw [List.length_drop, List.length_drop] at b2
        have hij : i = j := by omega
        subst hij
        have e1 : a.take i = b.take i := by
          apply ih
          · rw [List.length_take, Nat.min_eq_left (Nat.le_of_lt hi)]; omega
          · rw [List.length_take, Nat.min_eq_left (Nat.le_of_lt hi)]; omega
          · rw [List.length_take, List.length_take,
              Nat.min_eq_left (Nat.le_of_lt hi), Nat.min_eq_left (Nat.le_of_lt hj)]
        have e2 : a.drop (i + runLen (a.drop i) (b.drop i)) =
            b.drop (i + runLen (a.drop i) (b.drop i)) := by
          apply ih
          · rw [List.length_drop]; omega
          · rw [List.length_drop]; omega
          · rw [List.length_drop, List.length_drop]; omega
        have e3 : (a.drop i).take (runLen (a.drop i) (b.drop i)) =
            (b.drop i).take (runLen (a.drop i) (b.drop i)) :=
          runLen_take (a.drop i) (b.drop i)
        calc a = a.take i ++ a.drop i := (List.take_append_drop i a).symm
          _ = a.take i ++ ((a.drop i).take (runLen (a.drop i) (b.drop i)) ++
              (a.drop i).drop (runLen (a.drop i) (b.drop i))) :=
            congrArg (fun t => a.take i ++ t) (List.take_append_drop _ _).symm
          _ = b.take i ++ ((b.drop i).take (runLen (a.drop i) (b.drop i)) ++
              (b.drop i).drop (runLen (a.drop i) (b.drop i))) := by
            rw [e1, e3, List.drop_drop, List.drop_drop, e2]
          _ = b := by rw [List.take_append_drop, List.take_append_drop]

theorem ratioPair_eq (a b : List Char) : ratioPair a b =
    if a.length + b.length = 0 then (1, 1)
    else (2 * matchTotal a b, a.length + b.length) := rfl

theorem ratioPair_den_pos (a b : List Char) : 0 < (ratioPair a b).2 := by
  rw [ratioPair_eq]
  split
  · exact Nat.one_pos
  · next h => simpa using Nat.pos_of_ne_zero h

theorem ratioPair_num_le_den (a b : List Char) :
    (ratioPair a b).1 ≤ (ratioPair a b).2 := by
  rw [ratioPair_eq]
  split
  · exact Nat.le_refl 1
  · have h1 := (matchTotalF_le a.length a b).1
    have h2 := (matchTotalF_le a.length a b).2
    simp only [matchTotal]
    omega

theorem ratioPair_self_exact (a : List Char) :
    (ratioPair a a).1 = (ratioPair a a).2 := by
  rw [ratioPair_eq]
  split
  · rfl
  · rw [matchTotal_self]
    omega

theorem ratioPair_exact_eq {a b : List Char}
    (h : (ratioPair a b).1 = (ratioPair a b).2) : a = b := by
  rw [ratioPair_eq] at h
  split at h
  · next h0 =>
    have ha : a = [] := List.length_eq_zero.mp (by omega)
    have hb : b = [] := List.length_eq_zero.mp (by omega)
    rw [ha, hb]
  · have h1 := (matchTotalF_le a.length a b).1
    have h2 := (matchTotalF_le a.length a b).2
    simp only [matchTotal] at h
    exact matchTotalF_inj a.length a b (Nat.le_refl _) (by omega) (by omega)

theorem strGt_irrefl : ∀ s : List Char, strGt s s = false := by
  intro s
  induction s with
  | nil => rfl
  | cons c cs ih => simp [strGt, ih, lt_irrefl]

/-- All candidates surviving the cutoff filter score at most `1`, positively,
and score exactly `1` only for the word itself. -/
theorem gcm_good {w : List Char} {poss : List (List Char)}
    {c : (Nat × Nat) × List Char} (hc : c ∈ gcmCandidates w poss) :
    c.1.1 ≤ c.1.2 ∧ 0 < c.1.2 ∧ (c.1.1 = c.1.2 → c.2 = w) := by
  simp only [gcmCandidates, List.mem_filterMap] at hc
  obtain ⟨x, _, hx⟩ := hc
  by_cases hcut : 13 * (ratioPair x w).2 ≤ 20 * (ratioPair x w).1
  · rw [if_pos hcut] at hx
    cases hx
    exact ⟨ratioPair_num_le_den x w, ratioPair_den_pos x w,
      fun h => ratioPair_exact_eq h⟩
  · rw [if_neg hcut] at hx
    cases hx

/-- Through the `nlargest`-style fold, once a full-score candidate is the
accumulator, or appears later in the list, the final accumulator has full
score and is the word itself. -/
theorem fold_exact {w : List Char} :
    ∀ (t : List ((Nat × Nat) × List Char)) (acc : (Nat × Nat) × List Char),
      (acc.1.1 ≤ acc.1.2 ∧ 0 < acc.1.2 ∧ (acc.1.1 = acc.1.2 → acc.2 = w)) →
      (∀ c ∈ t, c.1.1 ≤ c.1.2 ∧ 0 < c.1.2 ∧ (c.1.1 = c.1.2 → c.2 = w)) →
      (acc.1.1 = acc.1.2 ∨ ∃ e ∈ t, e.1.1 = e.1.2) →
      (t.foldl (fun acc c => if pairGt c acc then c else acc) acc).1.1 =
          (t.foldl (fun acc c => if pairGt c acc then c else acc) acc).1.2 ∧
        (t.foldl (fun acc c => if pairGt c acc then c else acc) acc).2 = w := by
  intro t
  induction t with
  | nil =>
    intro acc hgood _ hex
    rcases hex with hex | ⟨e, he, _⟩
    · exact ⟨hex, hgood.2.2 hex⟩
    · cases he
  | cons c cs ih =>
    intro acc hgood hall hex
    rw [List.foldl_cons]
    have hgc := hall c (List.mem_cons_self c cs)
    have hgood' : ∀ br : (Nat × Nat) × List Char,
        br = (if pairGt c acc then c else acc) →
        br.1.1 ≤ br.1.2 ∧ 0 < br.1.2 ∧ (br.1.1 = br.1.2 → br.2 = w) := by
      intro br hbr
      rw [hbr]
      split
      · exact hgc
      · exact hgood
    have halls : ∀ d ∈ cs, d.1.1 ≤ d.1.2 ∧ 0 < d.1.2 ∧
        (d.1.1 = d.1.2 → d.2 = w) := fun d hd =>
      hall d (List.mem_cons_of_mem c hd)
    rcases hex with hex | ⟨e, he, hee⟩
    · -- the accumulator already has full score: the comparison with `c`
      -- cannot replace it (no strictly greater score exists, and the
      -- full-score tie is the word itself, not greater than itself)
      have hkeep : pairGt c acc = false := by
        have hacc2 : acc.2 = w := hgood.2.2 hex
        have h1 : ¬ acc.1.1 * c.1.2 < c.1.1 * acc.1.2 := by
          refine Nat.not_lt.mpr ?_
          calc c.1.1 * acc.1.2 ≤ c.1.2 * acc.1.2 :=
              Nat.mul_le_mul_right _ hgc.1
            _ = acc.1.2 * c.1.2 := Nat.mul_comm _ _
            _ = acc.1.1 * c.1.2 := by rw [hex]
        by_cases heq : c.1.1 * acc.1.2 = acc.1.1 * c.1.2
        · have hc12 : c.1.1 = c.1.2 := by
            have hmul : c.1.1 * acc.1.2 = c.1.2 * acc.1.2 := by
              calc c.1.1 * acc.1.2 = acc.1.1 * c.1.2 := heq
                _ = acc.1.2 * c.1.2 := by rw [hex]
                _ = c.1.2 * acc.1.2 := Nat.mul_comm _ _
            exact Nat.eq_of_mul_eq_mul_right hgood.2.1 hmul
          unfold pairGt
          rw [hgc.2.2 hc12, hacc2]
          simp [h1, strGt_irrefl]
        · unfold pairGt
          simp [h1, heq]
      have hstep : (if pairGt c acc = true then c else acc) = acc := by
        rw [hkeep]
        simp
      rw [hstep]
      exact ih acc hgood halls (Or.inl hex)
    · rcases List.mem_cons.mp he with rfl | hecs
      · -- the full-score element is the head being folded in
        cases hp : pairGt e acc with
        | true =>
          exact ih e hgc halls (Or.inl hee)
        | false =>
          -- not replacing: the accumulator must itself have full score
          have hnlt : ¬ acc.1.1 * e.1.2 < e.1.1 * acc.1.2 := by
            intro hlt
            have htrue : pairGt e acc = true := by
              unfold pairGt
              simp [hlt]
            rw [htrue] at hp
            cases hp
          have haccex : acc.1.1 = acc.1.2 := by
            have hch : acc.1.2 * e.1.2 ≤ acc.1.1 * e.1.2 := by
              calc acc.1.2 * e.1.2 = e.1.2 * acc.1.2 := Nat.mul_comm _ _
                _ = e.1.1 * acc.1.2 := by rw [hee]
                _ ≤ acc.1.1 * e.1.2 := Nat.le_of_not_lt hnlt
            have hle2 := Nat.le_of_mul_le_mul_right hch hgc.2.1
            have hub := hgood.1
            omega
          exact ih acc hgood halls (Or.inl haccex)
      · exact ih _ (hgood' _ rfl) halls (Or.inr ⟨e, hecs, hee⟩)

/-- `get_close_matches(word, poss, n=1, cutoff=0.65)` returns the word
itself whenever the word occurs among the possibilities, regardless of the
other possibilities. -/
theorem getCloseMatch1_self {w : List Char} {poss : List (List Char)}
    (hmem : w ∈ poss) : getCloseMatch1 w poss = some w := by
  have he : (ratioPair w w, w) ∈ gcmCandidates w poss := by
    simp only [gcmCandidates, List.mem_filterMap]
    refine ⟨w, hmem, ?_⟩
    rw [if_pos]
    have h1 := ratioPair_self_exact w
    have h2 := ratioPair_den_pos w w
    omega
  unfold getCloseMatch1
  rcases hl : gcmCandidates w poss with _ | ⟨h, t⟩
  · rw [hl] at he
    cases he
  · rw [hl] at he
    have hall : ∀ c ∈ h :: t, c.1.1 ≤ c.1.2 ∧ 0 < c.1.2 ∧
        (c.1.1 = c.1.2 → c.2 = w) := by
      intro c hc
      exact gcm_good (hl ▸ hc)
    have hgoodh := hall h (List.mem_cons_self h t)
    have hex : h.1.1 = h.1.2 ∨ ∃ e ∈ t, e.1.1 = e.1.2 := by
      rcases List.mem_cons.mp he with hh | ht
      · left
        rw [← hh]
        exact ratioPair_self_exact w
      · right
        exact ⟨(ratioPair w w, w), ht, ratioPair_self_exact w⟩
    have hres := fold_exact t h hgoodh
      (fun d hd => hall d (List.mem_cons_of_mem h hd)) hex
    exact congrArg Option.some hres.2

end Difflib

namespace Robot

open PyStr Difflib

/-- If some category name equals the query case-insensitively, then
`_closest_category` succeeds and returns an entry of the list whose name
equals the query case-insensitively — namely the first such entry —
regardless of every other entry. -/
theorem closest_category_exact {q n u : String}
    {cats : List (String × String)} (hq : q ≠ "") (hmem : (n, u) ∈ cats)
    (hn : lowerStr n = lowerStr q) :
    ∃ c, _closest_category q cats = some c ∧ c ∈ cats ∧
      lowerStr c.1 = lowerStr q := by
  unfold _closest_category
  rw [if_neg hq]
  have hw : (lowerStr q).data ∈ cats.map fun c => (lowerStr c.1).data := by
    rw [List.mem_map]
    exact ⟨(n, u), hmem, by rw [hn]⟩
  rw [getCloseMatch1_self hw]
  have hsome : (cats.find? fun c =>
      (lowerStr c.1).data == (lowerStr q).data).isSome := by
    rw [List.find?_isSome]
    exact ⟨(n, u), hmem, by simp [hn]⟩
  obtain ⟨c, hc⟩ := Option.isSome_iff_exists.mp hsome
  refine ⟨c, hc, List.mem_of_find?_eq_some hc, ?_⟩
  have := List.find?_some hc
  exact String.ext (eq_of_beq this)

theorem scrapePage_spec (n : Nat) : ∀ (cards : List Card) (items : List BItem),
    items.length < n →
    (scrapePage (some n) items cards).1.length ≤ n ∧
      ((scrapePage (some n) items cards).2 = false →
        (scrapePage (some n) items cards).1.length < n) := by
  intro cards
  induction cards with
  | nil =>
    intro items h
    exact ⟨Nat.le_of_lt h, fun _ => h⟩
  | cons c cs ih =>
    intro items h
    simp only [scrapePage]
    set items' := if PyStr.cleanText c.title ≠ "" then
      items ++ [⟨PyStr.cleanText c.title, PyStr.cleanText c.price⟩]
      else items with hidef
    have hlen : items'.length ≤ items.length + 1 := by
      rw [hidef]
      split
      · simp
      · simp
    by_cases hr : limitReached (some n) items'.length = true
    · rw [if_pos hr]
      refine ⟨?_, fun hfalse => ?_⟩
      · show items'.length ≤ n
        omega
      · simp at hfalse
    · rw [if_neg hr]
      apply ih items'
      simp only [limitReached, decide_eq_true_eq] at hr
      omega

theorem extractLoop_le (n : Nat) : ∀ (c : Cont) (items : List BItem) (p : Nat),
    items.length < n → (extractLoop (some n) c items p).length ≤ n := by
  intro c
  induction c with
  | stop e =>
    intro items p h
    simp only [extractLoop, ite_self]
    exact Nat.le_of_lt h
  | next cards rest ih =>
    intro items p h
    simp only [extractLoop]
    split
    · have hs := scrapePage_spec n cards items h
      split
      · exact hs.1
      · next hfalse =>
        exact ih _ _ (hs.2 (by simpa using hfalse))
    · exact Nat.le_of_lt h

theorem extract_le {n : Nat} (firstCards : List Card) (cont : Cont)
    (hn : 0 < n) :
    (_extract_items_from_category firstCards cont (some n)).length ≤ n := by
  simp only [_extract_items_from_category]
  have hs := scrapePage_spec n firstCards [] (by simpa using hn)
  split
  · exact hs.1
  · next hfalse =>
    exact extractLoop_le n cont _ 1 (hs.2 (by simpa using hfalse))

theorem extract_stop_first_page {firstCards : List Card} {limit : Option Nat}
    (h : (scrapePage limit [] firstCards).2 = true) (cont cont' : Cont) :
    _extract_items_from_category firstCards cont limit =
      _extract_items_from_category firstCards cont' limit := by
  simp [_extract_items_from_category, h]

theorem extract_timeout_partial (cards : List Card) (limit : Option Nat) :
    _extract_items_from_category cards (.stop .timeoutNext) limit =
      (scrapePage limit [] cards).1 := by
  simp only [_extract_items_from_category, extractLoop, ite_self]

/-- The no-close-match branch of `search_product`. -/
theorem search_product_no_match {w : World} {q : String} {lim : Option Int}
    {L : List (String × String)} (hroot : w.rootOk = true)
    (hlinks : w.links = some L) (hq : PyStr.pyStrip q ≠ "")
    (hnm : _closest_category (PyStr.pyStrip q) (_get_categories L) = none) :
    search_product w q lim =
      ⟨AGENT_NAME, "success", PyStr.pyStrip q, [],
        { categories := some ((_get_categories L).map (·.1)), count := some 0,
          category_url := some none,
          note := some "No close category match; choose from \x27categories\x27" }⟩ := by
  simp [search_product, hroot, hlinks, hq, hnm]

/-- The category-fetch-timeout branch of `search_product`. -/
theorem search_product_cats_timeout {w : World} {q : String}
    {lim : Option Int} (hroot : w.rootOk = true) (hlinks : w.links = none) :
    search_product w q lim =
      ⟨AGENT_NAME, "error", PyStr.pyStrip q, [],
        { note := some "Could not load categories" }⟩ := by
  simp [search_product, hroot, hlinks]

/-- The resolved-category branches of `search_product`: a first-page timeout
is fatal for the call; a pagination timeout after page 1 yields a success
response carrying the page-1 items. -/
theorem search_product_category_branches {w : World} {q : String}
    {lim : Option Int} {L : List (String × String)} {name url : String}
    (hroot : w.rootOk = true) (hlinks : w.links = some L)
    (hq : PyStr.pyStrip q ≠ "")
    (hres : _closest_category (PyStr.pyStrip q) (_get_categories L) =
      some (name, url)) :
    (w.catPage url = none →
      search_product w q lim =
        ⟨AGENT_NAME, "error", name, [],
          { count := some 0, category_url := some (some url),
            note := some "Timeout navigating category page" }⟩) ∧
    (∀ cards : List Card,
      w.catPage url = some (cards, .stop .timeoutNext) →
      (search_product w q lim).status = "success" ∧
      (search_product w q lim).items =
        (scrapePage (normalizeLimit lim) [] cards).1) := by
  constructor
  · intro hcat
    simp [search_product, hroot, hlinks, hq, hres, hcat]
  · intro cards hcat
    simp [search_product, hroot, hlinks, hq, hres, hcat,
      extract_timeout_partial]

/-- On every branch of `search_product`, a present `meta.count` equals the
number of returned items. -/
theorem search_product_count_ok (w : World) (q : String) (lim : Option Int) :
    metaCountOk (search_product w q lim) = true := by
  rcases w with ⟨rootOk, links, catPage⟩
  cases rootOk with
  | false => rfl
  | true =>
    cases links with
    | none => rfl
    | some L =>
      by_cases hq : PyStr.pyStrip q = ""
      · simp [search_product, hq, metaCountOk]
      · rcases hres : _closest_category (PyStr.pyStrip q)
            (_get_categories L) with _ | ⟨name, url⟩
        · simp [search_product, hq, hres, metaCountOk]
        · rcases hcat : catPage url with _ | ⟨cards, cont⟩
          · simp [search_product, hq, hres, hcat, metaCountOk]
          · simp [search_product, hq, hres, hcat, metaCountOk]

end Robot

namespace App

open Py

/-- The normalizer always yields a dict whose `items` entry is a list. -/
theorem normalize_items_list (raw : PyVal) (req : String) :
    itemsIsList (_normalize_search_payload raw req) = true := by
  cases raw with
  | dict d =>
    rcases hitems : Py.pyGet d "items" with _ | v
    · simp only [_normalize_search_payload, hitems]
      rfl
    · cases v with
      | list l =>
        simp only [_normalize_search_payload, hitems, itemsIsList]
      | null => simp only [_normalize_search_payload, hitems]; rfl
      | bool b => simp only [_normalize_search_payload, hitems]; rfl
      | int n => simp only [_normalize_search_payload, hitems]; rfl
      | str s => simp only [_normalize_search_payload, hitems]; rfl
      | dict dd => simp only [_normalize_search_payload, hitems]; rfl
  | null => rfl
  | bool b => rfl
  | int n => rfl
  | str s => rfl
  | list l => rfl

/-- A dict whose `items` is already a list is passed through unchanged. -/
theorem normalize_passthrough {d : List (String × PyVal)} {l : List PyVal}
    (req : String) (h : Py.pyGet d "items" = some (.list l)) :
    _normalize_search_payload (.dict d) req = .dict d := by
  simp only [_normalize_search_payload, h]

end App

namespace Mcp

/-- The effective step count is always clamped into `[1, 3]`. -/
theorem maxStepsOf_bounds (steps : Option Int) :
    1 ≤ maxStepsOf steps ∧ maxStepsOf steps ≤ 3 := by
  unfold maxStepsOf
  rcases steps with _ | s
  · simp
  · by_cases h0 : s = 0
    · simp [h0]
    · simp only [if_neg h0]
      omega

theorem statusVal_mcpToPy (r : McpOut) : statusVal (mcpToPy r) = r.status :=
  rfl

/-- For an unrecognized (non-`search_product`) intent of a small-enough
goal, the run fails with the unknown-intent error, makes no `/search-json`
attempt, and the goal is not coerced into a search. -/
theorem run_unknown_intent {world : Nat → PyVal}
    {g : List (String × PyVal)} {steps : Option Int} {i : String}
    (hi : intentOf g = some i) (hne : i ≠ "search_product")
    (hsize : (jsonDumps (.dict g)).length ≤ 1024) :
    run_ai_goal_core world g steps =
      some { status := "error",
             result := some (.dict [("status", .str "error"),
                              ("message", .str ("unknown intent: " ++ i))]),
             steps := [{ action := "unknown_intent", ok := false,
                         intent := some i }],
             searchCalls := 0 } := by
  obtain ⟨m, hm⟩ : ∃ m, maxStepsOf steps = m + 1 := by
    have := (maxStepsOf_bounds steps).1
    exact ⟨maxStepsOf steps - 1, by omega⟩
  simp only [run_ai_goal_core, hi, hm, runLoop]
  rw [if_neg (by omega)]
  rw [if_neg hne]
  rfl

/-- For a `search_product` goal of admissible size, exactly one
`/search-json` attempt is made, the run result is that attempt, and the
run status is `success` precisely when the single attempt reported
success: a failing attempt is surfaced as an error with no further
attempt. -/
theorem run_search_single_attempt {world : Nat → PyVal}
    {g : List (String × PyVal)} {steps : Option Int}
    (hi : intentOf g = some "search_product")
    (hsize : (jsonDumps (.dict g)).length ≤ 1024) :
    ∃ r, run_ai_goal_core world g steps = some r ∧
      r.searchCalls = 1 ∧
      r.result = some (mcpToPy (search_product (world 0))) ∧
      r.status = (if Py.isStrEq (search_product (world 0)).status "success"
        then "success" else "error") := by
  obtain ⟨m, hm⟩ : ∃ m, maxStepsOf steps = m + 1 := by
    have := (maxStepsOf_bounds steps).1
    exact ⟨maxStepsOf steps - 1, by omega⟩
  simp only [run_ai_goal_core, hi, hm, runLoop]
  rw [if_neg (by omega)]
  rw [if_pos trivial]
  exact ⟨_, rfl, rfl, rfl, by rw [statusVal_mcpToPy]⟩

/-- Whenever the run completes, the number of executed steps is bounded by
the clamped step budget, and at most one `/search-json` attempt is made. -/
theorem run_step_budget {world : Nat → PyVal} {g : List (String × PyVal)}
    {steps : Option Int} {r : RunOut}
    (h : run_ai_goal_core world g steps = some r) :
    1 ≤ maxStepsOf steps ∧ maxStepsOf steps ≤ 3 ∧
      r.steps.length ≤ maxStepsOf steps ∧ r.steps.length ≤ 1 ∧
      r.searchCalls ≤ 1 := by
  have hb := maxStepsOf_bounds steps
  obtain ⟨m, hm⟩ : ∃ m, maxStepsOf steps = m + 1 := ⟨maxStepsOf steps - 1,
    by omega⟩
  refine ⟨hb.1, hb.2, ?_⟩
  simp only [run_ai_goal_core, hm, runLoop] at h
  by_cases hsize : 1024 < (jsonDumps (.dict g)).length
  · rw [if_pos hsize] at h
    cases h
    simp
  · rw [if_neg hsize] at h
    rcases hi : intentOf g with _ | i
    · rw [hi] at h
      cases h
    · rw [hi] at h
      simp only at h
      by_cases hip : i = "search_product"
      · rw [if_pos hip] at h
        cases h
        refine ⟨?_, by simp, by simp⟩
        simp only [List.length_cons, List.length_nil]
        omega
      · rw [if_neg hip] at h
        cases h
        refine ⟨?_, by simp, by simp⟩
        simp only [List.length_cons, List.length_nil]
        omega

end Mcp

/-! ## The claims -/

set_option maxRecDepth 1000000

/-- C1, as stated, is false: on a non-empty query with no category match the
response status is `"success"`, not `"choices"` — shown here on the
specification scenario (query `"zzz-nonsense"` against the taxonomy
`Travel`/`Mystery`/`Food and Drink`), where the full category list is
nevertheless returned. -/
theorem claim_C1_counterexample :
    (Robot.search_product Robot.wNoMatch "zzz-nonsense" none).status =
      "success" ∧
    (Robot.search_product Robot.wNoMatch "zzz-nonsense" none).status ≠
      "choices" ∧
    (Robot.search_product Robot.wNoMatch "zzz-nonsense" none).items = [] ∧
    (Robot.search_product Robot.wNoMatch "zzz-nonsense" none).meta.categories
      = some ["Travel", "Mystery", "Food and Drink"] := by
  refine ⟨rfl, by decide, rfl, rfl⟩

/-- C1 (amended): for every non-empty query that resolves to no category
match, the search response has status `"success"` (the no-match outcome is
not an error and not a distinct `"choices"` status), empty items, and
carries the full category list in `meta.categories` so the caller can
re-prompt. -/
theorem claim_C1_no_match_lists_categories (w : Robot.World) (q : String)
    (lim : Option Int) (L : List (String × String))
    (hroot : w.rootOk = true) (hlinks : w.links = some L)
    (hq : PyStr.pyStrip q ≠ "")
    (hnm : Robot._closest_category (PyStr.pyStrip q)
      (Robot._get_categories L) = none) :
    (Robot.search_product w q lim).status = "success" ∧
    (Robot.search_product w q lim).items = [] ∧
    (Robot.search_product w q lim).meta.categories =
      some ((Robot._get_categories L).map (·.1)) := by
  rw [Robot.search_product_no_match hroot hlinks hq hnm]
  exact ⟨rfl, rfl, rfl⟩

theorem claim_C1_witness :
    (Robot.search_product Robot.wNoMatch "zzz-nonsense" none).status =
      "success" ∧
    (Robot.search_product Robot.wNoMatch "zzz-nonsense" none).items = [] ∧
    (Robot.search_product Robot.wNoMatch "zzz-nonsense" none).meta.categories
      = some ((Robot._get_categories [("Travel", "travel"),
        ("Mystery", "mystery"), ("Food and Drink", "food")]).map (·.1)) :=
  claim_C1_no_match_lists_categories Robot.wNoMatch "zzz-nonsense" none
    [("Travel", "travel"), ("Mystery", "mystery"), ("Food and Drink", "food")]
    rfl rfl (by decide) (by decide)

/-- C2, as stated, is false: there is no cache and no static fallback list.
When the category fetch fails, `search_product` returns an error response
carrying no taxonomy at all, and the taxonomy helper happily returns the
empty list when the page offers no (non-blank) links. -/
theorem claim_C2_counterexample :
    (Robot.search_product Robot.wCatsFail "Travel" none).status = "error" ∧
    (Robot.search_product Robot.wCatsFail "Travel" none).items = [] ∧
    (Robot.search_product Robot.wCatsFail "Travel" none).meta.categories =
      none ∧
    Robot._get_categories [] = [] ∧
    Robot._get_categories [("   ", "x")] = [] := by
  refine ⟨rfl, rfl, rfl, rfl, by decide⟩

/-- C2 (amended): taxonomy fetching has no cache and no fallback: on a
fetch failure (the sidebar selector wait times out) the search returns the
status-`"error"` response with empty items, the note
`"Could not load categories"`, and no category list. -/
theorem claim_C2_fetch_failure_is_error (w : Robot.World) (q : String)
    (lim : Option Int) (hroot : w.rootOk = true) (hlinks : w.links = none) :
    Robot.search_product w q lim =
      ⟨Robot.AGENT_NAME, "error", PyStr.pyStrip q, [],
        { note := some "Could not load categories" }⟩ :=
  Robot.search_product_cats_timeout hroot hlinks

theorem claim_C2_witness :
    Robot.search_product Robot.wCatsFail "Travel" none =
      ⟨Robot.AGENT_NAME, "error", PyStr.pyStrip "Travel", [],
        { note := some "Could not load categories" }⟩ :=
  claim_C2_fetch_failure_is_error Robot.wCatsFail "Travel" none rfl rfl

/-- C3: for every taxonomy containing an entry whose name equals the query
exactly (case-insensitively; queries are whitespace-trimmed by the caller),
resolution succeeds and returns an entry of the taxonomy whose name equals
the query case-insensitively — the first such entry — regardless of every
other entry and of its fuzzy score. -/
theorem claim_C3_exact_beats_fuzzy (q n u : String)
    (cats : List (String × String)) (hq : q ≠ "") (hmem : (n, u) ∈ cats)
    (hn : PyStr.lowerStr n = PyStr.lowerStr q) :
    ∃ c, Robot._closest_category q cats = some c ∧ c ∈ cats ∧
      PyStr.lowerStr c.1 = PyStr.lowerStr q :=
  Robot.closest_category_exact hq hmem hn

theorem claim_C3_witness :
    ∃ c, Robot._closest_category "Travel"
        [("Mystery", "m"), ("travel", "t")] = some c ∧
      c ∈ [("Mystery", "m"), ("travel", "t")] ∧
      PyStr.lowerStr c.1 = PyStr.lowerStr "Travel" :=
  claim_C3_exact_beats_fuzzy "Travel" "travel" "t"
    [("Mystery", "m"), ("travel", "t")] (by decide) (by decide) (by decide)

/-- C4: once a category is resolved, a timeout on its first page load makes
the whole call fail with the error response, whereas a timeout during the
pagination step after page 1 makes the call return the page-1 items with
status `"success"`. -/
theorem claim_C4_timeout_policy (w : Robot.World) (q : String)
    (lim : Option Int) (L : List (String × String)) (name url : String)
    (hroot : w.rootOk = true) (hlinks : w.links = some L)
    (hq : PyStr.pyStrip q ≠ "")
    (hres : Robot._closest_category (PyStr.pyStrip q)
      (Robot._get_categories L) = some (name, url)) :
    (w.catPage url = none →
      Robot.search_product w q lim =
        ⟨Robot.AGENT_NAME, "error", name, [],
          { count := some 0, category_url := some (some url),
            note := some "Timeout navigating category page" }⟩) ∧
    (∀ cards : List Robot.Card,
      w.catPage url = some (cards, .stop .timeoutNext) →
      (Robot.search_product w q lim).status = "success" ∧
      (Robot.search_product w q lim).items =
        (Robot.scrapePage (Robot.normalizeLimit lim) [] cards).1) :=
  Robot.search_product_category_branches hroot hlinks hq hres

theorem claim_C4_witness :
    Robot.search_product Robot.wCatTimeout "travel" none =
      ⟨Robot.AGENT_NAME, "error", "Travel", [],
        { count := some 0,
          category_url := some (some "https://books.toscrape.com/t-url"),
          note := some "Timeout navigating category page" }⟩ ∧
    (Robot.search_product Robot.wPagTimeout "travel" none).status =
      "success" ∧
    (Robot.search_product Robot.wPagTimeout "travel" none).items =
      [⟨"Book A", "£10"⟩, ⟨"Book B", "£11"⟩] := by
  refine ⟨(claim_C4_timeout_policy Robot.wCatTimeout "travel" none
      [("Travel", "t-url")] "Travel" "https://books.toscrape.com/t-url"
      rfl rfl (by decide) (by decide)).1 rfl, ?_, ?_⟩
  · exact ((claim_C4_timeout_policy Robot.wPagTimeout "travel" none
      [("Travel", "t-url")] "Travel" "https://books.toscrape.com/t-url"
      rfl rfl (by decide) (by decide)).2
      [⟨"Book A", "£10"⟩, ⟨"Book B", "£11"⟩] rfl).1
  · exact (((claim_C4_timeout_policy Robot.wPagTimeout "travel" none
      [("Travel", "t-url")] "Travel" "https://books.toscrape.com/t-url"
      rfl rfl (by decide) (by decide)).2
      [⟨"Book A", "£10"⟩, ⟨"Book B", "£11"⟩] rfl).2).trans rfl

/-- C5: with a positive limit `n`, extraction returns at most `n` items;
and when the limit is reached on the first page, the result does not
depend on any further pages (no pagination happens). -/
theorem claim_C5_limit_respected (firstCards : List Robot.Card)
    (cont : Robot.Cont) (n : Nat) (hn : 0 < n) :
    (Robot._extract_items_from_category firstCards cont (some n)).length
      ≤ n ∧
    ((Robot.scrapePage (some n) [] firstCards).2 = true →
      ∀ cont', Robot._extract_items_from_category firstCards cont' (some n) =
        Robot._extract_items_from_category firstCards cont (some n)) :=
  ⟨Robot.extract_le firstCards cont hn,
    fun h cont' => Robot.extract_stop_first_page h cont' cont⟩

theorem claim_C5_witness :
    (Robot._extract_items_from_category Robot.cards4 Robot.contMore
      (some 3)).length ≤ 3 ∧
    Robot._extract_items_from_category Robot.cards4 Robot.contEnd (some 3) =
      Robot._extract_items_from_category Robot.cards4 Robot.contMore
        (some 3) ∧
    Robot._extract_items_from_category Robot.cards4 Robot.contMore (some 3) =
      [⟨"A", "£1"⟩, ⟨"B", "£2"⟩, ⟨"C", "£3"⟩] :=
  ⟨(claim_C5_limit_respected Robot.cards4 Robot.contMore 3 (by decide)).1,
    (claim_C5_limit_respected Robot.cards4 Robot.contMore 3 (by decide)).2
      (by decide) Robot.contEnd, by decide⟩

/-- C6, as stated, is false: there is no browser-to-HTTP fallback.  With a
world whose first `/search-json` attempt reports the scraper failure and
whose second attempt would succeed, the router surfaces `"error"` after
exactly one attempt instead of recovering through a second call. -/
theorem claim_C6_counterexample :
    (Mcp.run_ai_goal_core Mcp.wFailThenOk Mcp.gSearch none).map
      (fun r => (r.status, r.searchCalls)) = some ("error", 1) ∧
    Py.isStrEq (Mcp.search_product (Mcp.wFailThenOk 1)).status "success" =
      true :=
  ⟨rfl, rfl⟩

/-- C6 (amended): for every `search_product` goal of admissible size the
router makes exactly one HTTP attempt; the run result is that attempt and
its failure is surfaced directly as status `"error"` — no fallback
re-attempt exists. -/
theorem claim_C6_single_attempt (world : Nat → PyVal)
    (g : List (String × PyVal)) (steps : Option Int)
    (hi : Mcp.intentOf g = some "search_product")
    (hsize : (Mcp.jsonDumps (.dict g)).length ≤ 1024) :
    ∃ r, Mcp.run_ai_goal_core world g steps = some r ∧
      r.searchCalls = 1 ∧
      r.result = some (Mcp.mcpToPy (Mcp.search_product (world 0))) ∧
      r.status = (if Py.isStrEq (Mcp.search_product (world 0)).status
        "success" then "success" else "error") :=
  Mcp.run_search_single_attempt hi hsize

theorem claim_C6_witness :
    ∃ r, Mcp.run_ai_goal_core Mcp.wFailThenOk Mcp.gSearch none = some r ∧
      r.searchCalls = 1 ∧
      r.result = some (Mcp.mcpToPy (Mcp.search_product (Mcp.wFailThenOk 0))) ∧
      r.status = (if Py.isStrEq (Mcp.search_product (Mcp.wFailThenOk 0)).status
        "success" then "success" else "error") :=
  claim_C6_single_attempt Mcp.wFailThenOk Mcp.gSearch none rfl (by decide)

/-- C7, as stated, is false in its pass-through clause: a dict whose
`items` is already a list is returned unchanged, with no defaults filled —
here the result lacks both `status` and `category` keys. -/
theorem claim_C7_counterexample :
    App._normalize_search_payload (.dict [("items", PyVal.list [])]) "x" =
      .dict [("items", PyVal.list [])] ∧
    Py.pyGet [("items", PyVal.list [])] "status" = none ∧
    Py.pyGet [("items", PyVal.list [])] "category" = none :=
  ⟨rfl, rfl, rfl⟩

/-- C7 (amended): the normalizer is total and always yields a dict whose
`items` entry is a list (possibly empty, never null or absent); in the
pass-through case the payload is returned unchanged (no defaults are
filled there). -/
theorem claim_C7_items_always_list (raw : PyVal) (req : String) :
    App.itemsIsList (App._normalize_search_payload raw req) = true ∧
    (∀ d l, raw = PyVal.dict d → Py.pyGet d "items" = some (.list l) →
      App._normalize_search_payload raw req = raw) := by
  refine ⟨App.normalize_items_list raw req, fun d l hd hl => ?_⟩
  subst hd
  exact App.normalize_passthrough req hl

theorem claim_C7_witness :
    App.itemsIsList (App._normalize_search_payload
      (.dict [("items", PyVal.list [])]) "x") = true ∧
    App._normalize_search_payload (.dict [("items", PyVal.list [])]) "x" =
      .dict [("items", PyVal.list [])] :=
  ⟨(claim_C7_items_always_list (.dict [("items", PyVal.list [])]) "x").1,
    (claim_C7_items_always_list (.dict [("items", PyVal.list [])]) "x").2
      [("items", PyVal.list [])] [] rfl rfl⟩

/-- C8: a structured goal with an unrecognized intent fails with the
unknown-intent error, makes no `/search-json` attempt (so no fallback and
no coercion into `search_product`), and reports the offending intent. -/
theorem claim_C8_unsupported_intent (world : Nat → PyVal)
    (g : List (String × PyVal)) (steps : Option Int) (i : String)
    (hi : Mcp.intentOf g = some i) (hne : i ≠ "search_product")
    (hsize : (Mcp.jsonDumps (.dict g)).length ≤ 1024) :
    Mcp.run_ai_goal_core world g steps =
      some { status := "error",
             result := some (.dict [("status", .str "error"),
                              ("message", .str ("unknown intent: " ++ i))]),
             steps := [{ action := "unknown_intent", ok := false,
                         intent := some i }],
             searchCalls := 0 } :=
  Mcp.run_unknown_intent hi hne hsize

theorem claim_C8_witness :
    Mcp.run_ai_goal_core Mcp.wNull Mcp.gDance none =
      some { status := "error",
             result := some (.dict [("status", .str "error"),
                              ("message", .str ("unknown intent: " ++
                                "dance"))]),
             steps := [{ action := "unknown_intent", ok := false,
                         intent := some "dance" }],
             searchCalls := 0 } :=
  claim_C8_unsupported_intent Mcp.wNull Mcp.gDance none "dance" rfl
    (by decide) (by decide)

/-- C9: whenever a run completes, the effective step budget is clamped into
`[1, MAX_STEPS] = [1, 3]`, the number of executed steps is within the
budget, and in fact at most one step and at most one `/search-json`
attempt ever happen — in particular the loop stops right after the first
successful search attempt. -/
theorem claim_C9_step_budget (world : Nat → PyVal)
    (g : List (String × PyVal)) (steps : Option Int) (r : Mcp.RunOut)
    (h : Mcp.run_ai_goal_core world g steps = some r) :
    1 ≤ Mcp.maxStepsOf steps ∧ Mcp.maxStepsOf steps ≤ 3 ∧
      r.steps.length ≤ Mcp.maxStepsOf steps ∧ r.steps.length ≤ 1 ∧
      r.searchCalls ≤ 1 :=
  Mcp.run_step_budget h

theorem claim_C9_witness :
    1 ≤ Mcp.maxStepsOf (some 7) ∧ Mcp.maxStepsOf (some 7) ≤ 3 ∧
      Mcp.rDance.steps.length ≤ Mcp.maxStepsOf (some 7) ∧
      Mcp.rDance.steps.length ≤ 1 ∧ Mcp.rDance.searchCalls ≤ 1 :=
  claim_C9_step_budget Mcp.wNull Mcp.gDance (some 7) Mcp.rDance rfl

/-- C10: in every response produced by the browser search, whenever the
`meta.count` key is present it equals the length of the items list. -/
theorem claim_C10_count_consistent (w : Robot.World) (q : String)
    (lim : Option Int) :
    Robot.metaCountOk (Robot.search_product w q lim) = true :=
  Robot.search_product_count_ok w q lim
